import Mathlib

/-!
# dbus-cpp: asynchronous completion core and name-owner watcher

A shallow embedding of

* `src/core/dbus/pending_call_impl.h` (`core::dbus::impl::PendingCall`),
* `src/core/dbus/service_watcher.cpp` (`core::dbus::ServiceWatcher`),
* the `MatchRule` exercised by `tests/match_rule_test.cpp`,

followed by the properties established about them.

The embedding is sequential: one operation runs at a time, the mutex `guard` is an explicit
boolean, and an attempt to lock a held `std::mutex` never returns (`Exit.blocked`).
Everything observable from outside the object (callback invocations, calls into the transport,
allocations of the cookie) is appended to an effect trace.
-/

namespace DBusCpp

/-! ## PendingCall: data model -/

/-- The private `enum class State` of `impl::PendingCall`. -/
inductive State where
  | pending
  | completed
deriving DecidableEq, Repr

/-- A decoded reply (`core::dbus::Message`), identified by the raw message it wraps.
A `Message::Ptr` is an `Option Message`, `none` being the null pointer. -/
structure Message where
  raw : Nat
deriving DecidableEq, Repr

/-- The exceptions that leave the code. `create` throws `std::runtime_error` twice: for a null
handle (the spec's `InvalidArgument`) and for a rejected notifier (the spec's `SetupFailed`);
calling an empty `std::function` throws `std::bad_function_call`. -/
inductive Error where
  | InvalidArgument
  | SetupFailed
  | bad_function_call
deriving DecidableEq, Repr

/-- How a call into the code ends: it returns, it throws, or it waits forever for `guard`. -/
inductive Exit where
  | returned
  | threw (e : Error)
  | blocked
deriving DecidableEq, Repr

/-- A `PendingCall::Notification` (a `std::function<void(const Message::Ptr&)>`).
`empty` is the default-constructed function object; `plain id` is a callable that does not
touch the PendingCall; `rethen id next` is a callable whose body calls `then(next)` on the very
PendingCall that invokes it. -/
inductive Notification where
  | empty
  | plain (id : Nat)
  | rethen (id : Nat) (next : Notification)
deriving DecidableEq, Repr

/-- A pointer argument of which only nullness matters. -/
inductive Ptr where
  | null
  | valid
deriving DecidableEq, Repr

/-- Modelled from the spec: the transport's handle-based pending-call object (`DBusPendingCall`
of libdbus, spec section 6: `get_completed`, `steal_reply`, `set_notify(callback, cookie,
cookie_deleter)`, `cancel`, `unref`). `reply` is the raw reply not yet stolen;
`notify_accepted` says whether `set_notify` will succeed; `cookie_held` says whether the
transport owns a cookie (and its deleter). -/
structure DBusPendingCall where
  completed : Bool
  reply : Option Nat
  notify_accepted : Bool
  cookie_held : Bool
  cancelled : Bool
  unrefs : Nat
deriving DecidableEq, Repr

/-- Everything observable from outside the PendingCall, in program order. `invoked` records the
callable, the `Message::Ptr` it received and whether `guard` was held at that moment. -/
inductive Event where
  | constructed
  | wrapper_new
  | wrapper_delete
  | set_notify (ok : Bool)
  | get_completed (r : Bool)
  | steal_reply (r : Option Nat)
  | call_unref
  | call_cancel
  | message_unref (raw : Nat)
  | invoked (cb : Notification) (msg : Option Message) (guard_held : Bool)
deriving DecidableEq, Repr

/-- One `impl::PendingCall` together with its surroundings. `state`, `guard`, `message` and
`callback` are the members of the class (`guard = true`: the mutex is held); `call` is the
transport object the member `pending_call` points to; `trace` is the effect trace. -/
structure World where
  state : State
  guard : Bool
  message : Option Message
  callback : Notification
  call : DBusPendingCall
  trace : List Event
deriving DecidableEq, Repr

/-- Append one effect to the trace. -/
def World.emit (w : World) (e : Event) : World :=
  { w with trace := w.trace ++ [e] }

/-- The callback invocations of a trace, in order: which callable, with which message. -/
def invocations : List Event → List (Notification × Option Message)
  | [] => []
  | .invoked cb m _ :: es => (cb, m) :: invocations es
  | _ :: es => invocations es

/-- Every callback invocation of the trace happened while `guard` was held. -/
def invoked_under_guard : List Event → Bool
  | [] => true
  | .invoked _ _ held :: es => held && invoked_under_guard es
  | _ :: es => invoked_under_guard es

/-- Cookies (`Wrapper` objects) allocated and not deleted. -/
def live_wrappers (trace : List Event) : Nat :=
  trace.count .wrapper_new - trace.count .wrapper_delete

/-- How often the transport handle was unreferenced. -/
def call_unrefs : List Event → Nat
  | [] => 0
  | .call_unref :: es => call_unrefs es + 1
  | _ :: es => call_unrefs es

/-! ## The transport, as the code uses it -/

/-- Modelled from the spec: `dbus_pending_call_steal_reply` hands out the reply once. -/
def dbus_pending_call_steal_reply (w : World) : Option Nat × World :=
  (w.call.reply, { w with call := { w.call with reply := none } }.emit (.steal_reply w.call.reply))

/-- Modelled from the spec: `dbus_pending_call_set_notify(call, function, cookie, deleter)`.
On success the transport owns the cookie; on failure it stores nothing and never runs the
deleter. -/
def dbus_pending_call_set_notify (w : World) : Bool × World :=
  if w.call.notify_accepted then
    (true, { w with call := { w.call with cookie_held := true } }.emit (.set_notify true))
  else
    (false, w.emit (.set_notify false))

/-- Modelled from the spec: `dbus_pending_call_unref`. -/
def dbus_pending_call_unref (w : World) : World :=
  { w with call := { w.call with unrefs := w.call.unrefs + 1 } }.emit .call_unref

/-- Modelled from the spec: `dbus_pending_call_cancel`. -/
def dbus_pending_call_cancel (w : World) : World :=
  { w with call := { w.call with cancelled := true } }.emit .call_cancel

/-- Modelled from the spec: the transport releases a cookie it owns exactly once, through the
deleter given to `set_notify` (`delete static_cast<Wrapper*>(p)`). -/
def transport_release_cookie (w : World) : World :=
  if w.call.cookie_held then
    { w with call := { w.call with cookie_held := false } }.emit .wrapper_delete
  else w

/-! ## PendingCall: operations -/

/-- The free function `is_pending_call_completed`: false for a null handle, otherwise
`dbus_pending_call_get_completed(pending_call) == TRUE`. -/
def is_pending_call_completed (pending_call : Ptr) (w : World) : Bool × World :=
  match pending_call with
  | .null => (false, w)
  | .valid => (w.call.completed, w.emit (.get_completed w.call.completed))

/-- Constructing a `std::lock_guard<std::mutex>` on `guard`: `none` when the mutex is held. -/
def lock_guard (w : World) : Option World :=
  if w.guard then none else some { w with guard := true }

/-- Destroying the `std::lock_guard`. -/
def unlock_guard (w : World) : World :=
  { w with guard := false }

/-- The body of `PendingCall::then`, with the call operator of `notification` passed in. -/
def then_body (call : Option Message → World → Exit × World) (notification : Notification)
    (w : World) : Exit × World :=
  match lock_guard w with
  | none => (.blocked, w)
  | some w =>
    let w := { w with callback := notification }
    match w.message with
    | none => (.returned, unlock_guard w)
    | some m =>
      match call (some m) w with
      | (.blocked, w) => (.blocked, w)
      | (x, w) => (x, unlock_guard w)

/-- Calling a `Notification` with a message (`callback(message)`). -/
def Notification.call : Notification → Option Message → World → Exit × World
  | .empty, _, w => (.threw .bad_function_call, w)
  | .plain id, m, w => (.returned, w.emit (.invoked (.plain id) m w.guard))
  | .rethen id next, m, w =>
    then_body next.call next (w.emit (.invoked (.rethen id next) m w.guard))

/-- The member function `PendingCall::then(notification)`. -/
def then_ (notification : Notification) (w : World) : Exit × World :=
  then_body notification.call notification w

/-- The member function `PendingCall::notify_locked(msg)`, called with `guard` held: announce
the incoming reply and invoke the callback if one is set. -/
def notify_locked (msg : Option Message) (w : World) : Exit × World :=
  if w.state = .completed then (.returned, w)
  else
    let w := { w with state := .completed }
    let w := { w with message := msg }
    match w.callback with
    | .empty => (.returned, w)
    | cb => cb.call w.message w

/-- The member function `PendingCall::cancel()`: it asks the transport to cancel and touches no
member. -/
def cancel (w : World) : Exit × World :=
  (.returned, dbus_pending_call_cancel w)

/-- The static notifier `PendingCall::on_pending_call_completed(call, cookie)`; the cookie, when
not null, is the `Wrapper` that points to this PendingCall. -/
def on_pending_call_completed (from_raw_message : Nat → Option Message)
    (call : Ptr) (cookie : Ptr) (w : World) : Exit × World :=
  match cookie with
  | .null => (.returned, w)
  | .valid =>
    match lock_guard w with
    | none => (.blocked, w)
    | some w =>
      match is_pending_call_completed call w with
      | (false, w) => (.returned, unlock_guard w)
      | (true, w) =>
        match dbus_pending_call_steal_reply w with
        | (none, w) => (.returned, unlock_guard w)
        | (some raw, w) =>
          match notify_locked (from_raw_message raw) w with
          | (.blocked, w) => (.blocked, w)
          | (x, w) => (x, (unlock_guard w).emit (.message_unref raw))

/-- What `PendingCall::create` leaves behind: how it ended, and the world of the PendingCall it
allocated (`none` when it allocated nothing). The caller receives the object only when
`exit = Exit.returned`. -/
structure Created where
  exit : Exit
  world : Option World
deriving DecidableEq, Repr

/-- The private constructor `PendingCall(call)`, run by `new` inside `create`. -/
def PendingCall_new (call : DBusPendingCall) : World :=
  { state := .pending, guard := false, message := none, callback := .empty,
    call := call, trace := [.constructed] }

/-- The late completion check of `create` (the block after `set_notify` succeeded) and the end
of its scope: the lock guard is destroyed first, then `Scope` unreferences the handle and the
stolen message. -/
def create_late_check (from_raw_message : Nat → Option Message) (w : World) : Exit × World :=
  match is_pending_call_completed .valid w with
  | (false, w) => (.returned, dbus_pending_call_unref (unlock_guard w))
  | (true, w) =>
    match dbus_pending_call_steal_reply w with
    | (none, w) => (.returned, dbus_pending_call_unref (unlock_guard w))
    | (some raw, w) =>
      match notify_locked (from_raw_message raw) w with
      | (.blocked, w) => (.blocked, w)
      | (x, w) => (x, (dbus_pending_call_unref (unlock_guard w)).emit (.message_unref raw))

/-- The factory `PendingCall::create(call)`; `none` is the null handle. -/
def create (from_raw_message : Nat → Option Message) (call : Option DBusPendingCall) : Created :=
  match call with
  | none => ⟨.threw .InvalidArgument, none⟩
  | some c =>
    match lock_guard (PendingCall_new c) with
    | none => ⟨.blocked, some (PendingCall_new c)⟩
    | some w =>
      match dbus_pending_call_set_notify (w.emit .wrapper_new) with
      | (false, w) => ⟨.threw .SetupFailed, some (dbus_pending_call_unref (unlock_guard w))⟩
      | (true, w) =>
        match create_late_check from_raw_message w with
        | (x, w) => ⟨x, some w⟩

/-! ## Scenarios: sequences of operations on one PendingCall -/

/-- Environment step: the transport completes the call, with raw reply `reply` on offer. -/
def transport_completes (reply : Option Nat) (w : World) : World :=
  { w with call := { w.call with completed := true, reply := reply } }

/-- The late completion check taken as a delivery path of its own: the part of `create` that
runs under its lock guard once the notifier is installed. -/
def late_check (from_raw_message : Nat → Option Message) (w : World) : Exit × World :=
  match lock_guard w with
  | none => (.blocked, w)
  | some w => create_late_check from_raw_message w

/-- What can happen to a PendingCall after `create` returned it: a call of `then`, a call of
`cancel`, the transport firing the notifier, the late completion check, and the transport
object changing its own state. -/
inductive Op where
  | call_then (notification : Notification)
  | call_cancel
  | fire_notifier (call cookie : Ptr)
  | run_late_check
  | transport_changes (c : DBusPendingCall)
deriving DecidableEq, Repr

/-- The world after one operation. -/
def Op.run (from_raw_message : Nat → Option Message) : Op → World → World
  | .call_then n, w => (then_ n w).2
  | .call_cancel, w => (cancel w).2
  | .fire_notifier call cookie, w =>
    (on_pending_call_completed from_raw_message call cookie w).2
  | .run_late_check, w => (late_check from_raw_message w).2
  | .transport_changes c, w => { w with call := c }

/-- The worlds a PendingCall can be in: those a successful `create` returns, and those reached
from them by operations. -/
inductive Reachable (from_raw_message : Nat → Option Message) : World → Prop where
  | created (c : DBusPendingCall) (w : World) :
      create from_raw_message (some c) = ⟨.returned, some w⟩ → Reachable from_raw_message w
  | step (op : Op) (w : World) :
      Reachable from_raw_message w → Reachable from_raw_message (op.run from_raw_message w)

/-- A completion delivery that reaches `notify_locked` with the raw reply `raw`: through the
transport notifier or through the late completion check. -/
inductive Delivery where
  | notifier (raw : Nat)
  | late_check (raw : Nat)
deriving DecidableEq, Repr

/-- The raw reply a delivery carries. -/
def Delivery.raw : Delivery → Nat
  | .notifier raw => raw
  | .late_check raw => raw

/-- The world after a delivery: the transport has the reply on offer and the path runs. -/
def deliver (from_raw_message : Nat → Option Message) : Delivery → World → World
  | .notifier raw, w =>
    (on_pending_call_completed from_raw_message .valid .valid (transport_completes (some raw) w)).2
  | .late_check raw, w => (late_check from_raw_message (transport_completes (some raw) w)).2

/-- The world after a sequence of deliveries. -/
def deliver_all (from_raw_message : Nat → Option Message) (ds : List Delivery) (w : World) :
    World :=
  ds.foldl (fun w d => deliver from_raw_message d w) w

/-- The world after attaching callbacks one after the other with `then`. -/
def then_all (ns : List Notification) (w : World) : World :=
  ns.foldl (fun w n => (then_ n w).2) w

/-! ## Invariants of the reachable worlds -/

/-- Between operations: a pending PendingCall stores no reply, its guard is free and no callback
has been invoked; the guard is held only when a callback that called `then` from inside its
invocation is stuck. -/
def Inv (w : World) : Prop :=
  (w.state = .pending → w.message = none ∧ w.guard = false ∧ invocations w.trace = []) ∧
  (w.guard = true → ∃ id next, w.callback = .rethen id next)

/-- A completed PendingCall stores a reply. -/
def Stored (w : World) : Prop :=
  w.state = .completed → w.message ≠ none

/-! ## Concrete inputs -/

/-- A decoder that always yields a message, as `Message::from_raw_message` does. -/
def example_from_raw (raw : Nat) : Option Message := some ⟨raw⟩

/-- A handle whose call has not completed and whose transport accepts a notifier. -/
def example_call_pending : DBusPendingCall :=
  { completed := false, reply := none, notify_accepted := true, cookie_held := false,
    cancelled := false, unrefs := 0 }

/-- A handle whose call has completed with raw reply 7. -/
def example_call_completed : DBusPendingCall :=
  { completed := true, reply := some 7, notify_accepted := true, cookie_held := false,
    cancelled := false, unrefs := 0 }

/-- A handle whose transport rejects the notifier. -/
def example_call_rejecting : DBusPendingCall :=
  { completed := false, reply := none, notify_accepted := false, cookie_held := false,
    cancelled := false, unrefs := 0 }

/-- The PendingCall `create` returns for `example_call_pending`. -/
def example_world_pending : World :=
  { state := .pending, guard := false, message := none, callback := .empty,
    call := { example_call_pending with cookie_held := true, unrefs := 1 },
    trace := [.constructed, .wrapper_new, .set_notify true, .get_completed false, .call_unref] }

/-- The PendingCall `create` returns for `example_call_completed`. -/
def example_world_completed : World :=
  { state := .completed, guard := false, message := some ⟨7⟩, callback := .empty,
    call := { example_call_completed with reply := none, cookie_held := true, unrefs := 1 },
    trace := [.constructed, .wrapper_new, .set_notify true, .get_completed true,
      .steal_reply (some 7), .call_unref, .message_unref 7] }

/-! ## ServiceWatcher -/

/-- The enum `DBus::WatchMode`. -/
inductive WatchMode where
  | owner_change
  | registration
  | unregistration
deriving DecidableEq, Repr

/-- The type `NameOwnerChanged::ArgumentType`: the tuple (name, old_owner, new_owner). -/
abbrev ArgumentType := String × String × String

/-- The type `MatchRule::MatchArgs`: pairs of an argument index and the string it has to
equal. -/
abbrev MatchArgs := List (Nat × String)

/-- What the ServiceWatcher emits on its three signals. -/
inductive WatcherEvent where
  | owner_changed (old_owner new_owner : String)
  | service_registered
  | service_unregistered
deriving DecidableEq, Repr

/-- The handler `ServiceWatcher::Private::signal_handler(args)`: the emissions it makes, in
order. -/
def signal_handler (args : ArgumentType) : List WatcherEvent :=
  let old_owner := args.2.1
  let new_owner := args.2.2
  [.owner_changed old_owner new_owner] ++
    (if new_owner = "" then [.service_unregistered] else [.service_registered])

/-- The `match_args` the constructor `ServiceWatcher::ServiceWatcher(object, name, watch_mode)`
hands to `connect_with_match_args`. -/
def match_args (name : String) (watch_mode : WatchMode) : MatchArgs :=
  let match_args : MatchArgs := [(0, name)]
  match watch_mode with
  | .owner_change => match_args
  | .registration => match_args ++ [(1, "")]
  | .unregistration => match_args ++ [(2, "")]

/-- The string argument of a NameOwnerChanged event at an index, if it has one there. -/
def argument (args : ArgumentType) : Nat → Option String
  | 0 => some args.1
  | 1 => some args.2.1
  | 2 => some args.2.2
  | _ => none

/-- Modelled from the spec: the indexed-argument filter of `Signal::connect_with_match_args`,
which is not part of the sources at hand: an event passes when, for every listed pair, its
argument at that index equals the given string. -/
def passes_filter (filter : MatchArgs) (args : ArgumentType) : Bool :=
  filter.all (fun p => argument args p.1 == some p.2)

/-- Modelled from the spec: what a ServiceWatcher constructed for `name` in `watch_mode` emits
for one NameOwnerChanged event on the bus: the signal hands the event to the connected
`signal_handler` only when it passes the filter installed by the constructor. -/
def watcher_emits (name : String) (watch_mode : WatchMode) (args : ArgumentType) :
    List WatcherEvent :=
  if passes_filter (match_args name watch_mode) args then signal_handler args else []

/-! ## MatchRule -/

/-- Modelled from the spec: the message kinds a MatchRule can select (`Message::Type`; the
class is not part of the sources at hand, only its test is). -/
inductive MessageType where
  | method_call
  | method_return
  | error
  | signal
deriving DecidableEq, Repr

/-- Modelled from the spec: the spelling of a message kind in a match rule. -/
def MessageType.name : MessageType → String
  | .method_call => "method_call"
  | .method_return => "method_return"
  | .error => "error"
  | .signal => "signal"

/-- Modelled from the spec: the keys of a match rule, `arg index` being `arg<N>`. -/
inductive Key where
  | type
  | sender
  | interface
  | member
  | path
  | arg (index : Nat)
deriving DecidableEq, Repr

/-- Modelled from the spec: the position of a key in the fixed key order (type, sender,
interface, member, path, then args in ascending index order). -/
def Key.rank : Key → Nat
  | .type => 0
  | .sender => 1
  | .interface => 2
  | .member => 3
  | .path => 4
  | .arg index => 5 + index

/-- Modelled from the spec: the spelling of a key. -/
def Key.name : Key → String
  | .type => "type"
  | .sender => "sender"
  | .interface => "interface"
  | .member => "member"
  | .path => "path"
  | .arg index => "arg" ++ toString index

/-- Modelled from the spec: whether a key is an indexed argument. An argument predicate is
emitted also for the empty string (the ServiceWatcher filters on `arg1=''`); the other
predicates count as unset when empty. -/
def Key.is_arg : Key → Bool
  | .arg _ => true
  | _ => false

/-- Modelled from the spec: a MatchRule, the set of optional predicates (section 3). A string
predicate is unset when empty; `args` is kept in ascending index order. -/
structure MatchRule where
  type : Option MessageType
  sender : String
  interface : String
  member : String
  path : String
  args : MatchArgs
deriving DecidableEq, Repr

/-- Modelled from the spec: the rule a default-constructed MatchRule stands for. -/
def MatchRule.unset : MatchRule :=
  { type := none, sender := "", interface := "", member := "", path := "", args := [] }

/-- Modelled from the spec: setting the indexed argument `index`, overwriting an earlier value
for the same index and keeping the indices ascending. -/
def set_arg (index : Nat) (value : String) : MatchArgs → MatchArgs
  | [] => [(index, value)]
  | (j, u) :: rest =>
    if index < j then (index, value) :: (j, u) :: rest
    else if index = j then (index, value) :: rest
    else (j, u) :: set_arg index value rest

/-- Modelled from the spec: one call of a builder operation (section 4.2). -/
inductive BuilderCall where
  | type (t : MessageType)
  | sender (s : String)
  | interface (s : String)
  | member (s : String)
  | path (s : String)
  | arg (index : Nat) (value : String)
deriving DecidableEq, Repr

/-- The key a builder call sets. -/
def BuilderCall.key : BuilderCall → Key
  | .type _ => .type
  | .sender _ => .sender
  | .interface _ => .interface
  | .member _ => .member
  | .path _ => .path
  | .arg index _ => .arg index

/-- The value a builder call sets, as it is spelled in the rule. -/
def BuilderCall.value : BuilderCall → String
  | .type t => t.name
  | .sender s => s
  | .interface s => s
  | .member s => s
  | .path s => s
  | .arg _ value => value

/-- Modelled from the spec: the effect of one builder call; setting a predicate again
overwrites it. -/
def MatchRule.apply (r : MatchRule) : BuilderCall → MatchRule
  | .type t => { r with type := some t }
  | .sender s => { r with sender := s }
  | .interface s => { r with interface := s }
  | .member s => { r with member := s }
  | .path s => { r with path := s }
  | .arg index value => { r with args := set_arg index value r.args }

/-- Modelled from the spec: the rule after a sequence of builder calls on a fresh MatchRule. -/
def MatchRule.build (calls : List BuilderCall) : MatchRule :=
  calls.foldl MatchRule.apply MatchRule.unset

/-- Modelled from the spec: a string predicate, omitted when empty. -/
def string_predicate (k : Key) (value : String) : List (Key × String) :=
  if value = "" then [] else [(k, value)]

/-- Modelled from the spec: the type predicate, omitted when no type was set. -/
def type_predicate : Option MessageType → List (Key × String)
  | none => []
  | some t => [(.type, t.name)]

/-- Modelled from the spec: the predicates `compile` emits, in the order it emits them. -/
def MatchRule.predicates (r : MatchRule) : List (Key × String) :=
  type_predicate r.type ++
  string_predicate .sender r.sender ++
  string_predicate .interface r.interface ++
  string_predicate .member r.member ++
  string_predicate .path r.path ++
  r.args.map (fun p => (Key.arg p.1, p.2))

/-- Modelled from the spec: one predicate in canonical form, `key='value'`. -/
def render (p : Key × String) : String :=
  p.1.name ++ "='" ++ p.2 ++ "'"

/-- Modelled from the spec: `MatchRule::compile`, the predicates joined by single commas. -/
def MatchRule.compile (r : MatchRule) : String :=
  ",".intercalate (r.predicates.map render)

/-- Modelled from the spec: `MatchRule::as_string`, the name the test uses for `compile`. -/
def MatchRule.as_string (r : MatchRule) : String :=
  r.compile

/-- The value the calls leave a key with, read off the call sequence alone: the value of the
last call for that key, provided it is an argument or not empty. -/
def last_set (calls : List BuilderCall) (k : Key) : Option String :=
  match calls.reverse.find? (fun c => c.key = k) with
  | none => none
  | some c => if k.is_arg ∨ c.value ≠ "" then some c.value else none

/-- A call sequence that sets the member twice, an argument, and the path. -/
def example_calls : List BuilderCall :=
  [.member "ListNames", .arg 0 "a.name", .member "Hello", .path "/org/freedesktop/DBus"]

/-- Calls that leave the same predicates set as `example_calls`, in another order. -/
def example_calls_reordered : List BuilderCall :=
  [.path "/org/freedesktop/DBus", .member "Hello", .arg 0 "a.name"]

/-- The rule of `tests/match_rule_test.cpp`. -/
def test_rule_calls : List BuilderCall :=
  [.type .signal, .sender "org.freedesktop.DBus", .interface "org.freedesktop.DBus",
   .member "ListNames", .path "/org/freedesktop/DBus"]

/-- The indices of an argument list ascend strictly. -/
def args_ascending (args : MatchArgs) : Prop :=
  args.Pairwise (fun a b => a.1 < b.1)

/-- The rule `r` holds the predicate `k = v`. -/
def MatchRule.holds (r : MatchRule) (k : Key) (v : String) : Prop :=
  match k with
  | .type => ∃ t, r.type = some t ∧ t.name = v
  | .sender => r.sender = v ∧ v ≠ ""
  | .interface => r.interface = v ∧ v ≠ ""
  | .member => r.member = v ∧ v ≠ ""
  | .path => r.path = v ∧ v ≠ ""
  | .arg index => (index, v) ∈ r.args

/-- Strings joined the way the canonical form asks for: nothing for no string, and otherwise
the first string followed, for each further string, by one comma and that string; so no comma
leads, trails or follows another comma. -/
def comma_joined : List String → String
  | [] => ""
  | [a] => a
  | a :: b :: rest => a ++ "," ++ comma_joined (b :: rest)

/-! # Theorems -/

/-! ## Lemmas on single operations -/

theorem invocations_append (xs ys : List Event) :
    invocations (xs ++ ys) = invocations xs ++ invocations ys := by
  induction xs with
  | nil => rfl
  | cons e es ih => cases e <;> simp [invocations, ih]

theorem invoked_under_guard_append (xs ys : List Event) :
    invoked_under_guard (xs ++ ys) = (invoked_under_guard xs && invoked_under_guard ys) := by
  induction xs with
  | nil => simp [invoked_under_guard]
  | cons e es ih => cases e <;> simp [invoked_under_guard, ih, Bool.and_assoc]

/-- What `then` does, case by case. -/
theorem then_eq (n : Notification) (w : World) :
    then_ n w =
      if w.guard then (.blocked, w)
      else match w.message with
        | none => (.returned, { w with callback := n })
        | some m =>
          match n with
          | .empty => (.threw .bad_function_call, { w with callback := n })
          | .plain _ =>
            (.returned, { w with callback := n,
                                 trace := w.trace ++ [.invoked n (some m) true] })
          | .rethen _ _ =>
            (.blocked, { w with guard := true, callback := n,
                                trace := w.trace ++ [.invoked n (some m) true] }) := by
  obtain ⟨st, g, msg, cb, c, tr⟩ := w
  cases g <;> cases msg <;> cases n <;>
    simp [then_, then_body, lock_guard, unlock_guard, Notification.call, World.emit]

/-- On a completed PendingCall the notifier changes neither state, reply nor callback and
invokes nothing, whatever the transport offers. -/
theorem notifier_completed (frm : Nat → Option Message) (call cookie : Ptr) (w : World)
    (hs : w.state = .completed) :
    (on_pending_call_completed frm call cookie w).2.state = .completed ∧
    (on_pending_call_completed frm call cookie w).2.message = w.message ∧
    (on_pending_call_completed frm call cookie w).2.callback = w.callback ∧
    invocations (on_pending_call_completed frm call cookie w).2.trace
      = invocations w.trace := by
  obtain ⟨st, g, msg, cb, c, tr⟩ := w
  obtain ⟨cc, rep, na, ch, cn, un⟩ := c
  simp only at hs
  subst hs
  cases cookie <;> cases call <;> cases g <;> cases cc <;> cases rep <;>
    simp [on_pending_call_completed, lock_guard, unlock_guard, is_pending_call_completed,
      dbus_pending_call_steal_reply, notify_locked, World.emit, invocations_append, invocations]

/-- The same for the late completion check. -/
theorem late_check_completed (frm : Nat → Option Message) (w : World)
    (hs : w.state = .completed) :
    (late_check frm w).2.state = .completed ∧
    (late_check frm w).2.message = w.message ∧
    (late_check frm w).2.callback = w.callback ∧
    invocations (late_check frm w).2.trace = invocations w.trace := by
  obtain ⟨st, g, msg, cb, c, tr⟩ := w
  obtain ⟨cc, rep, na, ch, cn, un⟩ := c
  simp only at hs
  subst hs
  cases g <;> cases cc <;> cases rep <;>
    simp [late_check, create_late_check, lock_guard, unlock_guard, is_pending_call_completed,
      dbus_pending_call_steal_reply, dbus_pending_call_unref, notify_locked, World.emit,
      invocations_append, invocations]

/-- A delivery to a completed PendingCall changes neither state, reply nor callback and invokes
nothing. -/
theorem deliver_completed (frm : Nat → Option Message) (d : Delivery) (w : World)
    (hs : w.state = .completed) :
    (deliver frm d w).state = .completed ∧
    (deliver frm d w).message = w.message ∧
    (deliver frm d w).callback = w.callback ∧
    invocations (deliver frm d w).trace = invocations w.trace := by
  cases d with
  | notifier raw =>
    exact notifier_completed frm .valid .valid (transport_completes (some raw) w) hs
  | late_check raw => exact late_check_completed frm (transport_completes (some raw) w) hs

/-- A delivery to a pending PendingCall with a callback attached completes it, stores the
decoded reply and invokes that callback once with it. -/
theorem deliver_pending (frm : Nat → Option Message) (d : Delivery) (w : World)
    (hs : w.state = .pending) (hg : w.guard = false) (hcb : w.callback ≠ .empty) :
    (deliver frm d w).state = .completed ∧
    (deliver frm d w).message = frm d.raw ∧
    (deliver frm d w).callback = w.callback ∧
    invocations (deliver frm d w).trace = invocations w.trace ++ [(w.callback, frm d.raw)] := by
  obtain ⟨st, g, msg, cb, c, tr⟩ := w
  obtain ⟨cc, rep, na, ch, cn, un⟩ := c
  simp only at hs hg hcb
  subst hs hg
  cases d <;> cases cb <;>
    simp_all [deliver, transport_completes, Delivery.raw, late_check, create_late_check,
      on_pending_call_completed, lock_guard, unlock_guard, is_pending_call_completed,
      dbus_pending_call_steal_reply, dbus_pending_call_unref, notify_locked, World.emit,
      invocations_append, invocations, Notification.call, then_body]

/-- Deliveries to a completed PendingCall, however many, invoke nothing. -/
theorem deliver_all_completed (frm : Nat → Option Message) (ds : List Delivery) (w : World)
    (hs : w.state = .completed) :
    (deliver_all frm ds w).state = .completed ∧
    (deliver_all frm ds w).message = w.message ∧
    (deliver_all frm ds w).callback = w.callback ∧
    invocations (deliver_all frm ds w).trace = invocations w.trace := by
  induction ds generalizing w with
  | nil => exact ⟨hs, rfl, rfl, rfl⟩
  | cons d ds ih =>
    obtain ⟨h1, h2, h3, h4⟩ := deliver_completed frm d w hs
    obtain ⟨k1, k2, k3, k4⟩ := ih (deliver frm d w) h1
    exact ⟨k1, k2.trans h2, k3.trans h3, k4.trans h4⟩

/-- Attaching callbacks to a pending PendingCall only replaces the stored callback. -/
theorem then_all_pending (ns : List Notification) (w : World) (hm : w.message = none)
    (hg : w.guard = false) :
    then_all ns w = { w with callback := (ns.getLast?).getD w.callback } := by
  induction ns generalizing w with
  | nil => rfl
  | cons n ns ih =>
    have h1 : then_all (n :: ns) w = then_all ns (then_ n w).2 := rfl
    have h2 : (then_ n w).2 = { w with callback := n } := by
      rw [then_eq, if_neg (by simp [hg]), hm]
    rw [h1, h2, ih { w with callback := n } hm hg]
    cases ns with
    | nil => rfl
    | cons n2 ns2 =>
      simp [List.getLast?_cons_cons, List.getLast?_eq_getLast (n2 :: ns2) (by simp)]

theorem inv_create (frm : Nat → Option Message) (c : DBusPendingCall) (w : World)
    (h : create frm (some c) = ⟨.returned, some w⟩) : Inv w := by
  obtain ⟨cc, rep, na, ch, cn, un⟩ := c
  cases na <;> cases cc <;> cases rep <;>
    simp [create, create_late_check, PendingCall_new, lock_guard, unlock_guard,
      is_pending_call_completed, dbus_pending_call_set_notify, dbus_pending_call_steal_reply,
      dbus_pending_call_unref, notify_locked, World.emit] at h <;>
    subst h <;> simp [Inv, invocations]

theorem inv_step (frm : Nat → Option Message) (op : Op) (w : World) (h : Inv w) :
    Inv (op.run frm w) := by
  obtain ⟨st, g, msg, cb, c, tr⟩ := w
  obtain ⟨cc, rep, na, ch, cn, un⟩ := c
  cases op with
  | call_then n =>
    simp only [Op.run, then_eq]
    cases g <;> cases msg <;> cases n <;> cases st <;> simp_all [Inv]
  | call_cancel =>
    simpa [Op.run, cancel, dbus_pending_call_cancel, World.emit, Inv, invocations_append,
      invocations] using h
  | transport_changes c2 => simpa [Op.run, Inv] using h
  | fire_notifier call cookie =>
    cases cookie <;> cases call <;> cases g <;> cases cc <;> cases rep <;> cases st <;>
      cases cb <;>
      simp_all [Op.run, Inv, invocations_append, invocations, on_pending_call_completed, lock_guard, unlock_guard,
        is_pending_call_completed, dbus_pending_call_steal_reply, notify_locked, World.emit,
        Notification.call, then_body]
  | run_late_check =>
    cases g <;> cases cc <;> cases rep <;> cases st <;> cases cb <;>
      simp_all [Op.run, Inv, invocations_append, invocations, late_check, create_late_check, lock_guard, unlock_guard,
        is_pending_call_completed, dbus_pending_call_steal_reply, dbus_pending_call_unref,
        notify_locked, World.emit, Notification.call, then_body]

theorem reachable_inv (frm : Nat → Option Message) (w : World) (h : Reachable frm w) :
    Inv w := by
  induction h with
  | created c w hc => exact inv_create frm c w hc
  | step op w _ ih => exact inv_step frm op w ih

theorem stored_create (frm : Nat → Option Message) (hfrm : ∀ raw, frm raw ≠ none)
    (c : DBusPendingCall) (w : World)
    (h : create frm (some c) = ⟨.returned, some w⟩) : Stored w := by
  obtain ⟨cc, rep, na, ch, cn, un⟩ := c
  cases na <;> cases cc <;> cases rep <;>
    simp [create, create_late_check, PendingCall_new, lock_guard, unlock_guard,
      is_pending_call_completed, dbus_pending_call_set_notify, dbus_pending_call_steal_reply,
      dbus_pending_call_unref, notify_locked, World.emit] at h <;>
    subst h <;> simp [Stored, hfrm]

theorem stored_step (frm : Nat → Option Message) (hfrm : ∀ raw, frm raw ≠ none)
    (op : Op) (w : World) (h : Stored w) : Stored (op.run frm w) := by
  obtain ⟨st, g, msg, cb, c, tr⟩ := w
  obtain ⟨cc, rep, na, ch, cn, un⟩ := c
  cases op with
  | call_then n =>
    simp only [Op.run, then_eq]
    cases g <;> cases msg <;> cases n <;> cases st <;> simp_all [Stored]
  | call_cancel => simpa [Op.run, cancel, dbus_pending_call_cancel, World.emit, Stored] using h
  | transport_changes c2 => simpa [Op.run, Stored] using h
  | fire_notifier call cookie =>
    cases cookie <;> cases call <;> cases g <;> cases cc <;> cases rep <;> cases st <;>
      cases cb <;>
      simp_all [Op.run, Stored, on_pending_call_completed, lock_guard, unlock_guard,
        is_pending_call_completed, dbus_pending_call_steal_reply, notify_locked, World.emit,
        Notification.call, then_body]
  | run_late_check =>
    cases g <;> cases cc <;> cases rep <;> cases st <;> cases cb <;>
      simp_all [Op.run, Stored, late_check, create_late_check, lock_guard, unlock_guard,
        is_pending_call_completed, dbus_pending_call_steal_reply, dbus_pending_call_unref,
        notify_locked, World.emit, Notification.call, then_body]

theorem reachable_stored (frm : Nat → Option Message) (hfrm : ∀ raw, frm raw ≠ none)
    (w : World) (h : Reachable frm w) : Stored w := by
  induction h with
  | created c w hc => exact stored_create frm hfrm c w hc
  | step op w _ ih => exact stored_step frm hfrm op w ih

theorem example_world_pending_reachable : Reachable example_from_raw example_world_pending :=
  Reachable.created example_call_pending _ rfl

theorem example_world_completed_reachable :
    Reachable example_from_raw example_world_completed :=
  Reachable.created example_call_completed _ rfl

/-- C1: on a PendingCall that is still pending, after callbacks were attached with `then`, the
last of them being `cb`, nothing has been invoked; the first completion delivery (transport
notifier or late completion check, reaching `notify_locked` with a reply) invokes `cb` once
with that delivery's decoded reply, and after any further deliveries the invocations are still
exactly that one: no later delivery invokes a callback and no replaced callback is invoked. -/
theorem C1_attached_callback_fires_once (frm : Nat → Option Message) (w : World)
    (hw : Reachable frm w) (hs : w.state = .pending)
    (older : List Notification) (cb : Notification) (hcb : cb ≠ .empty)
    (d : Delivery) (ds : List Delivery) :
    invocations (then_all (older ++ [cb]) w).trace = [] ∧
    invocations (deliver frm d (then_all (older ++ [cb]) w)).trace = [(cb, frm d.raw)] ∧
    invocations (deliver_all frm (d :: ds) (then_all (older ++ [cb]) w)).trace
      = [(cb, frm d.raw)] := by
  obtain ⟨hm, hg, hi⟩ := (reachable_inv frm w hw).1 hs
  have h1 : then_all (older ++ [cb]) w = { w with callback := cb } := by
    rw [then_all_pending _ w hm hg]
    simp
  obtain ⟨k1, _, _, k4⟩ := deliver_pending frm d { w with callback := cb } hs hg hcb
  rw [h1]
  refine ⟨hi, ?_, ?_⟩
  · rw [k4]; simp [hi]
  · have h2 : deliver_all frm (d :: ds) { w with callback := cb }
        = deliver_all frm ds (deliver frm d { w with callback := cb }) := rfl
    rw [h2, (deliver_all_completed frm ds _ k1).2.2.2, k4]
    simp [hi]

theorem C1_attached_callback_fires_once_witness :
    Reachable example_from_raw example_world_pending ∧
    example_world_pending.state = .pending ∧
    Notification.plain 2 ≠ .empty ∧
    invocations (then_all ([.plain 1] ++ [.plain 2]) example_world_pending).trace = [] ∧
    invocations (deliver example_from_raw (.notifier 7)
      (then_all ([.plain 1] ++ [.plain 2]) example_world_pending)).trace
        = [(.plain 2, example_from_raw (Delivery.notifier 7).raw)] ∧
    invocations (deliver_all example_from_raw (.notifier 7 :: [.late_check 8, .notifier 9])
      (then_all ([.plain 1] ++ [.plain 2]) example_world_pending)).trace
        = [(.plain 2, example_from_raw (Delivery.notifier 7).raw)] :=
  ⟨example_world_pending_reachable, rfl, by decide,
    C1_attached_callback_fires_once example_from_raw example_world_pending
      example_world_pending_reachable rfl [.plain 1] (.plain 2) (by decide) (.notifier 7)
      [.late_check 8, .notifier 9]⟩

/-- C2: on a PendingCall that completed with reply `m` while no callback was attached, a later
`then(cb)` invokes `cb` once, inside that call of `then`, with the stored reply `m`; completion
deliveries arriving afterwards do not invoke it again. -/
theorem C2_late_callback_fires_in_then (frm : Nat → Option Message) (w : World)
    (hw : Reachable frm w) (m : Message) (hm : w.message = some m)
    (hno : w.callback = .empty) (cb : Notification) (hcb : cb ≠ .empty)
    (ds : List Delivery) :
    (then_ cb w).2.trace = w.trace ++ [.invoked cb (some m) true] ∧
    invocations (then_ cb w).2.trace = invocations w.trace ++ [(cb, some m)] ∧
    invocations (deliver_all frm ds (then_ cb w).2).trace
      = invocations w.trace ++ [(cb, some m)] := by
  have hinv := reachable_inv frm w hw
  have hs : w.state = .completed := by
    cases h : w.state with
    | completed => rfl
    | pending => have := (hinv.1 h).1; rw [hm] at this; cases this
  have hg : w.guard = false := by
    cases h : w.guard with
    | false => rfl
    | true =>
      obtain ⟨id, next, hc⟩ := hinv.2 h
      rw [hno] at hc; cases hc
  have ht : (then_ cb w).2.trace = w.trace ++ [.invoked cb (some m) true] ∧
      (then_ cb w).2.state = .completed := by
    rw [then_eq, if_neg (by simp [hg]), hm]
    cases cb with
    | empty => exact absurd rfl hcb
    | plain id => exact ⟨rfl, hs⟩
    | rethen id next => exact ⟨rfl, hs⟩
  have hi : invocations (then_ cb w).2.trace = invocations w.trace ++ [(cb, some m)] := by
    rw [ht.1, invocations_append]; rfl
  exact ⟨ht.1, hi, by rw [(deliver_all_completed frm ds _ ht.2).2.2.2, hi]⟩

theorem C2_late_callback_fires_in_then_witness :
    Reachable example_from_raw example_world_completed ∧
    example_world_completed.message = some ⟨7⟩ ∧
    example_world_completed.callback = .empty ∧
    Notification.plain 1 ≠ .empty ∧
    ((then_ (.plain 1) example_world_completed).2.trace
      = example_world_completed.trace ++ [.invoked (.plain 1) (some ⟨7⟩) true] ∧
    invocations (then_ (.plain 1) example_world_completed).2.trace
      = invocations example_world_completed.trace ++ [(.plain 1, some ⟨7⟩)] ∧
    invocations (deliver_all example_from_raw [.notifier 7, .late_check 8]
      (then_ (.plain 1) example_world_completed).2).trace
        = invocations example_world_completed.trace ++ [(.plain 1, some ⟨7⟩)]) :=
  ⟨example_world_completed_reachable, rfl, rfl, by decide,
    C2_late_callback_fires_in_then example_from_raw example_world_completed
      example_world_completed_reachable ⟨7⟩ rfl rfl (.plain 1) (by decide)
      [.notifier 7, .late_check 8]⟩

theorem op_keeps_invoked_under_guard (frm : Nat → Option Message) (op : Op) (w : World) :
    invoked_under_guard (op.run frm w).trace = invoked_under_guard w.trace := by
  obtain ⟨st, g, msg, cb, c, tr⟩ := w
  obtain ⟨cc, rep, na, ch, cn, un⟩ := c
  cases op with
  | call_then n =>
    simp only [Op.run, then_eq]
    cases g <;> cases msg <;> cases n <;>
      simp [invoked_under_guard_append, invoked_under_guard]
  | call_cancel =>
    simp [Op.run, cancel, dbus_pending_call_cancel, World.emit, invoked_under_guard_append,
      invoked_under_guard]
  | transport_changes c2 => rfl
  | fire_notifier call cookie =>
    cases cookie <;> cases call <;> cases g <;> cases cc <;> cases rep <;> cases st <;>
      cases cb <;>
      simp [Op.run, on_pending_call_completed, lock_guard, unlock_guard,
        is_pending_call_completed, dbus_pending_call_steal_reply, notify_locked, World.emit,
        Notification.call, then_body, invoked_under_guard_append, invoked_under_guard]
  | run_late_check =>
    cases g <;> cases cc <;> cases rep <;> cases st <;> cases cb <;>
      simp [Op.run, late_check, create_late_check, lock_guard, unlock_guard,
        is_pending_call_completed, dbus_pending_call_steal_reply, dbus_pending_call_unref,
        notify_locked, World.emit, Notification.call, then_body, invoked_under_guard_append,
        invoked_under_guard]

/-- C3, as stated, fails: `then` on the PendingCall that `create` returns for an already
completed call invokes the callback while `guard` is held, and a callback that calls `then` on
the same PendingCall from inside its invocation never returns. -/
theorem C3_counterexample :
    create example_from_raw (some example_call_completed)
      = ⟨.returned, some example_world_completed⟩ ∧
    (then_ (.plain 1) example_world_completed).2.trace
      = example_world_completed.trace ++ [.invoked (.plain 1) (some ⟨7⟩) true] ∧
    (then_ (.rethen 1 (.plain 2)) example_world_completed).1 = .blocked ∧
    (on_pending_call_completed example_from_raw .valid .valid
      (transport_completes (some 7)
        (then_ (.plain 1) example_world_pending).2)).2.trace
      = example_world_pending.trace ++
          [.get_completed true, .steal_reply (some 7),
           .invoked (.plain 1) (some ⟨7⟩) true, .message_unref 7] := by
  decide

/-- C3, amended: every operation on a PendingCall (`then`, `cancel`, the transport notifier,
the late completion check) invokes callbacks only while `guard` is held, so the trace's
invocations stay under the guard; consequently a callback that calls `then` on the same
PendingCall from inside its own invocation blocks, on the path through `then` with a stored
reply and on the completion paths through `notify_locked` alike. -/
theorem C3_callback_runs_under_guard (frm : Nat → Option Message) (op : Op) (x : World)
    (id : Nat) (next : Notification) (m : Message) (raw : Nat) (w p : World)
    (hm : w.message = some m)
    (hp : p.state = .pending) (hcb : p.callback = .rethen id next)
    (hc : p.call.completed = true) (hr : p.call.reply = some raw) :
    invoked_under_guard (op.run frm x).trace = invoked_under_guard x.trace ∧
    (then_ (.rethen id next) w).1 = .blocked ∧
    (on_pending_call_completed frm .valid .valid p).1 = .blocked ∧
    (late_check frm p).1 = .blocked := by
  refine ⟨op_keeps_invoked_under_guard frm op x, ?_, ?_, ?_⟩
  · rw [then_eq, hm]
    cases w.guard <;> simp
  · obtain ⟨st, g, msg, cb, c, tr⟩ := p
    obtain ⟨cc, rep, na, ch, cn, un⟩ := c
    simp only at hp hcb hc hr
    subst hp hcb hc hr
    cases g <;>
      simp [on_pending_call_completed, lock_guard, is_pending_call_completed,
        dbus_pending_call_steal_reply, notify_locked, World.emit, Notification.call, then_body]
  · obtain ⟨st, g, msg, cb, c, tr⟩ := p
    obtain ⟨cc, rep, na, ch, cn, un⟩ := c
    simp only at hp hcb hc hr
    subst hp hcb hc hr
    cases g <;>
      simp [late_check, create_late_check, lock_guard, is_pending_call_completed,
        dbus_pending_call_steal_reply, notify_locked, World.emit, Notification.call, then_body]

theorem C3_callback_runs_under_guard_witness :
    example_world_completed.message = some ⟨7⟩ ∧
    (transport_completes (some 7) (then_ (.rethen 1 (.plain 2)) example_world_pending).2).state
      = .pending ∧
    (transport_completes (some 7) (then_ (.rethen 1 (.plain 2)) example_world_pending).2).callback
      = .rethen 1 (.plain 2) ∧
    (transport_completes (some 7)
      (then_ (.rethen 1 (.plain 2)) example_world_pending).2).call.completed = true ∧
    (transport_completes (some 7)
      (then_ (.rethen 1 (.plain 2)) example_world_pending).2).call.reply = some 7 ∧
    (invoked_under_guard
        ((Op.call_then (.plain 1)).run example_from_raw example_world_completed).trace
      = invoked_under_guard example_world_completed.trace ∧
    (then_ (.rethen 1 (.plain 2)) example_world_completed).1 = .blocked ∧
    (on_pending_call_completed example_from_raw .valid .valid
      (transport_completes (some 7)
        (then_ (.rethen 1 (.plain 2)) example_world_pending).2)).1 = .blocked ∧
    (late_check example_from_raw
      (transport_completes (some 7)
        (then_ (.rethen 1 (.plain 2)) example_world_pending).2)).1 = .blocked) :=
  ⟨rfl, rfl, rfl, rfl, rfl,
    C3_callback_runs_under_guard example_from_raw (.call_then (.plain 1))
      example_world_completed 1 (.plain 2) ⟨7⟩ 7 example_world_completed
      (transport_completes (some 7) (then_ (.rethen 1 (.plain 2)) example_world_pending).2)
      rfl rfl rfl rfl rfl⟩

/-- C4: for every NameOwnerChanged event the handler emits `owner_changed(old_owner, new_owner)`
first and then exactly one further event, `service_unregistered()` when `new_owner` is empty
and `service_registered()` otherwise; so ("", "owner1") gives owner_changed then registered and
("owner1", "") gives owner_changed then unregistered. -/
theorem C4_handler_emits_change_then_one (name old_owner new_owner : String) :
    signal_handler (name, old_owner, new_owner)
      = [.owner_changed old_owner new_owner,
         if new_owner = "" then .service_unregistered else .service_registered] ∧
    (signal_handler (name, old_owner, new_owner)).length = 2 ∧
    signal_handler (name, "", "owner1")
      = [.owner_changed "" "owner1", .service_registered] ∧
    signal_handler (name, "owner1", "")
      = [.owner_changed "owner1" "", .service_unregistered] := by
  refine ⟨?_, ?_, ?_, ?_⟩
  · by_cases h : new_owner = "" <;> simp [signal_handler, h]
  · by_cases h : new_owner = "" <;> simp [signal_handler, h]
  · simp [signal_handler]
  · simp [signal_handler]

/-- C5: the constructor subscribes with the filter [(0, n)] in owner_change mode,
[(0, n), (1, "")] in registration mode and [(0, n), (2, "")] in unregistration mode; an event
whose name differs from `n` emits nothing in any mode, and neither does, in registration mode,
an event whose old owner is not empty, nor, in unregistration mode, an event whose new owner is
not empty; an event for `n` itself does reach the handler in owner_change mode. -/
theorem C5_constructor_filter (n : String) (mode : WatchMode)
    (other reg unreg : ArgumentType)
    (ho : other.1 ≠ n) (hr : reg.2.1 ≠ "") (hu : unreg.2.2 ≠ "") :
    match_args n .owner_change = [(0, n)] ∧
    match_args n .registration = [(0, n), (1, "")] ∧
    match_args n .unregistration = [(0, n), (2, "")] ∧
    passes_filter (match_args n mode) other = false ∧
    watcher_emits n mode other = [] ∧
    passes_filter (match_args n .registration) reg = false ∧
    watcher_emits n .registration reg = [] ∧
    passes_filter (match_args n .unregistration) unreg = false ∧
    watcher_emits n .unregistration unreg = [] ∧
    watcher_emits n .owner_change (n, other.2) = signal_handler (n, other.2) := by
  have h1 : passes_filter (match_args n mode) other = false := by
    cases mode <;> simp [passes_filter, match_args, argument, ho]
  have h2 : passes_filter (match_args n .registration) reg = false := by
    simp [passes_filter, match_args, argument, hr]
  have h3 : passes_filter (match_args n .unregistration) unreg = false := by
    simp [passes_filter, match_args, argument, hu]
  have h4 : passes_filter (match_args n .owner_change) (n, other.2) = true := by
    simp [passes_filter, match_args, argument]
  refine ⟨rfl, rfl, rfl, h1, ?_, h2, ?_, h3, ?_, ?_⟩ <;> simp [watcher_emits, h1, h2, h3, h4]

theorem C5_constructor_filter_witness :
    ("other.name", "", "owner1").1 ≠ "a.name" ∧
    (("a.name", "owner1", "owner2") : ArgumentType).2.1 ≠ "" ∧
    (("a.name", "", "owner1") : ArgumentType).2.2 ≠ "" ∧
    (match_args "a.name" .owner_change = [(0, "a.name")] ∧
    match_args "a.name" .registration = [(0, "a.name"), (1, "")] ∧
    match_args "a.name" .unregistration = [(0, "a.name"), (2, "")] ∧
    passes_filter (match_args "a.name" .owner_change) ("other.name", "", "owner1") = false ∧
    watcher_emits "a.name" .owner_change ("other.name", "", "owner1") = [] ∧
    passes_filter (match_args "a.name" .registration) ("a.name", "owner1", "owner2")
      = false ∧
    watcher_emits "a.name" .registration ("a.name", "owner1", "owner2") = [] ∧
    passes_filter (match_args "a.name" .unregistration) ("a.name", "", "owner1") = false ∧
    watcher_emits "a.name" .unregistration ("a.name", "", "owner1") = [] ∧
    watcher_emits "a.name" .owner_change ("a.name", ("other.name", "", "owner1").2)
      = signal_handler ("a.name", ("other.name", "", "owner1").2)) :=
  ⟨by decide, by decide, by decide,
    C5_constructor_filter "a.name" .owner_change ("other.name", "", "owner1")
      ("a.name", "owner1", "owner2") ("a.name", "", "owner1")
      (by decide) (by decide) (by decide)⟩

/-- When the transport accepts the notifier for a handle that carries no cookie yet, the cookie
`create` allocated is owned by the transport afterwards, and none stays allocated once the
transport has released it through the deleter. -/
theorem accepted_notifier_hands_over_cookie (frm : Nat → Option Message)
    (c : DBusPendingCall) (h : c.notify_accepted = true) (hfresh : c.cookie_held = false) :
    ∃ w, create frm (some c) = ⟨.returned, some w⟩ ∧
      w.call.cookie_held = true ∧
      live_wrappers w.trace = 1 ∧
      live_wrappers (transport_release_cookie w).trace = 0 := by
  obtain ⟨cc, rep, na, ch, cn, un⟩ := c
  simp only at h hfresh
  subst h hfresh
  cases cc with
  | false => exact ⟨_, rfl, rfl, rfl, rfl⟩
  | true =>
    cases rep with
    | none => exact ⟨_, rfl, rfl, rfl, rfl⟩
    | some raw => exact ⟨_, rfl, rfl, rfl, rfl⟩

/-- C6 (the code at the failing input): when the transport rejects the notifier for a handle
that carries no cookie yet, `create` throws the `SetupFailed` error, invokes no callback and
unreferences the handle once, but the cookie allocated for `set_notify` is neither owned by the
transport nor deleted: one `Wrapper`, and with it a strong reference to the PendingCall, stays
allocated, also after the transport released whatever it owns. -/
theorem C6_rejected_notifier_leaves_cookie (frm : Nat → Option Message) (c : DBusPendingCall)
    (h : c.notify_accepted = false) (hfresh : c.cookie_held = false) :
    ∃ w, create frm (some c) = ⟨.threw .SetupFailed, some w⟩ ∧
      invocations w.trace = [] ∧
      call_unrefs w.trace = 1 ∧
      w.call.cookie_held = false ∧
      live_wrappers w.trace = 1 ∧
      live_wrappers (transport_release_cookie w).trace = 1 := by
  obtain ⟨cc, rep, na, ch, cn, un⟩ := c
  simp only at h hfresh
  subst h hfresh
  exact ⟨_, rfl, rfl, rfl, rfl, rfl, rfl⟩

theorem C6_rejected_notifier_leaves_cookie_witness :
    example_call_rejecting.notify_accepted = false ∧
    example_call_rejecting.cookie_held = false ∧
    ∃ w, create example_from_raw (some example_call_rejecting)
        = ⟨.threw .SetupFailed, some w⟩ ∧
      invocations w.trace = [] ∧
      call_unrefs w.trace = 1 ∧
      w.call.cookie_held = false ∧
      live_wrappers w.trace = 1 ∧
      live_wrappers (transport_release_cookie w).trace = 1 :=
  ⟨rfl, rfl,
    C6_rejected_notifier_leaves_cookie example_from_raw example_call_rejecting rfl rfl⟩

/-- C7: `create` on a null handle throws the `InvalidArgument` error and does nothing else (no
PendingCall is allocated, so nothing is installed, unreferenced or queried); on a non-null
handle whose transport accepts the notifier, `create` returns a PendingCall. -/
theorem C7_null_handle_rejected (frm : Nat → Option Message) (c : DBusPendingCall)
    (h : c.notify_accepted = true) :
    create frm none = ⟨.threw .InvalidArgument, none⟩ ∧
    (create frm (some c)).exit = .returned ∧
    (create frm (some c)).world.isSome = true := by
  obtain ⟨cc, rep, na, ch, cn, un⟩ := c
  simp only at h
  subst h
  refine ⟨rfl, ?_, ?_⟩ <;> cases cc <;> cases rep <;>
    simp [create, create_late_check, PendingCall_new, lock_guard, unlock_guard,
      is_pending_call_completed, dbus_pending_call_set_notify, dbus_pending_call_steal_reply,
      dbus_pending_call_unref, notify_locked, World.emit]

theorem C7_null_handle_rejected_witness :
    example_call_pending.notify_accepted = true ∧
    create example_from_raw none = ⟨.threw .InvalidArgument, none⟩ ∧
    (create example_from_raw (some example_call_pending)).exit = .returned ∧
    (create example_from_raw (some example_call_pending)).world.isSome = true :=
  ⟨rfl, C7_null_handle_rejected example_from_raw example_call_pending rfl⟩

/-! ## MatchRule lemmas -/

theorem set_arg_subset (i : Nat) (v : String) (l : MatchArgs) (x : Nat × String)
    (hx : x ∈ set_arg i v l) : x = (i, v) ∨ x ∈ l := by
  induction l with
  | nil => simpa [set_arg] using hx
  | cons a rest ih =>
    obtain ⟨j, u⟩ := a
    unfold set_arg at hx
    split_ifs at hx with h1 h2
    · simp only [List.mem_cons] at hx ⊢
      tauto
    · simp only [List.mem_cons] at hx ⊢
      tauto
    · simp only [List.mem_cons] at hx ⊢
      rcases hx with hx | hx
      · tauto
      · have := ih hx
        tauto

theorem set_arg_ascending (i : Nat) (v : String) (l : MatchArgs) (h : args_ascending l) :
    args_ascending (set_arg i v l) := by
  induction l with
  | nil => simp [set_arg, args_ascending]
  | cons a rest ih =>
    obtain ⟨j, u⟩ := a
    unfold args_ascending at h ih ⊢
    rw [List.pairwise_cons] at h
    unfold set_arg
    split_ifs with h1 h2
    · rw [List.pairwise_cons, List.pairwise_cons]
      refine ⟨?_, h⟩
      intro x hx
      rcases List.mem_cons.1 hx with hx | hx
      · subst hx; exact h1
      · exact lt_trans h1 (h.1 x hx)
    · subst h2
      rw [List.pairwise_cons]
      exact ⟨h.1, h.2⟩
    · rw [List.pairwise_cons]
      refine ⟨?_, ih h.2⟩
      intro x hx
      rcases set_arg_subset i v rest x hx with hx | hx
      · subst hx
        show j < i
        omega
      · exact h.1 x hx

theorem set_arg_mem (i : Nat) (v : String) (l : MatchArgs) (h : args_ascending l)
    (j : Nat) (u : String) :
    (j, u) ∈ set_arg i v l ↔ (j = i ∧ u = v) ∨ (j ≠ i ∧ (j, u) ∈ l) := by
  induction l with
  | nil => simp [set_arg]
  | cons a rest ih =>
    obtain ⟨k, w⟩ := a
    unfold args_ascending at h ih
    rw [List.pairwise_cons] at h
    have hk : ∀ u2, (j, u2) ∈ rest → k < j := fun u2 hm => h.1 (j, u2) hm
    unfold set_arg
    split_ifs with h1 h2
    · simp only [List.mem_cons, Prod.mk.injEq]
      constructor
      · rintro (⟨rfl, rfl⟩ | ⟨rfl, rfl⟩ | hm)
        · exact Or.inl ⟨rfl, rfl⟩
        · exact Or.inr ⟨by omega, Or.inl ⟨rfl, rfl⟩⟩
        · exact Or.inr ⟨by have := hk u hm; omega, Or.inr hm⟩
      · rintro (⟨rfl, rfl⟩ | ⟨hne, ⟨rfl, rfl⟩ | hm⟩)
        · exact Or.inl ⟨rfl, rfl⟩
        · exact Or.inr (Or.inl ⟨rfl, rfl⟩)
        · exact Or.inr (Or.inr hm)
    · subst h2
      simp only [List.mem_cons, Prod.mk.injEq]
      constructor
      · rintro (⟨rfl, rfl⟩ | hm)
        · exact Or.inl ⟨rfl, rfl⟩
        · exact Or.inr ⟨by have := hk u hm; omega, Or.inr hm⟩
      · rintro (⟨rfl, rfl⟩ | ⟨hne, ⟨rfl, rfl⟩ | hm⟩)
        · exact Or.inl ⟨rfl, rfl⟩
        · exact absurd rfl hne
        · exact Or.inr hm
    · simp only [List.mem_cons, Prod.mk.injEq]
      rw [ih h.2]
      constructor
      · rintro (⟨rfl, rfl⟩ | ⟨rfl, rfl⟩ | ⟨hne, hm⟩)
        · exact Or.inr ⟨h2 ∘ Eq.symm, Or.inl ⟨rfl, rfl⟩⟩
        · exact Or.inl ⟨rfl, rfl⟩
        · exact Or.inr ⟨hne, Or.inr hm⟩
      · rintro (⟨rfl, rfl⟩ | ⟨hne, ⟨rfl, rfl⟩ | hm⟩)
        · exact Or.inr (Or.inl ⟨rfl, rfl⟩)
        · exact Or.inl ⟨rfl, rfl⟩
        · exact Or.inr (Or.inr ⟨hne, hm⟩)

theorem name_ne_empty (t : MessageType) : t.name ≠ "" := by
  cases t <;> decide

theorem mem_string_predicate (k k2 : Key) (v s : String) :
    (k, v) ∈ string_predicate k2 s ↔ k = k2 ∧ v = s ∧ s ≠ "" := by
  unfold string_predicate
  split_ifs with h
  · simp [h]
  · simp [h]

theorem mem_predicates (r : MatchRule) (k : Key) (v : String) :
    (k, v) ∈ r.predicates ↔ r.holds k v := by
  obtain ⟨ty, s, i, m, p, a⟩ := r
  cases k <;> cases ty <;>
    simp [MatchRule.predicates, MatchRule.holds, type_predicate, mem_string_predicate, eq_comm]
  all_goals (rintro rfl; exact Iff.rfl)

theorem holds_apply (r : MatchRule) (c : BuilderCall) (h : args_ascending r.args)
    (k : Key) (v : String) :
    (r.apply c).holds k v ↔
      if c.key = k then (k.is_arg = true ∨ c.value ≠ "") ∧ c.value = v else r.holds k v := by
  obtain ⟨ty, s, i, m, p, a⟩ := r
  cases c with
  | arg ci cv =>
    cases k with
    | arg ki =>
      have hm := set_arg_mem ci cv a h ki v
      by_cases hk : ci = ki
      · subst hk
        simp [MatchRule.apply, MatchRule.holds, BuilderCall.key, BuilderCall.value,
          Key.is_arg, hm, eq_comm]
      · have hk2 : ¬ ki = ci := fun e => hk e.symm
        simp [MatchRule.apply, MatchRule.holds, BuilderCall.key, BuilderCall.value,
          Key.is_arg, hm, hk, hk2]
    | _ => simp [MatchRule.apply, MatchRule.holds, BuilderCall.key]
  | type t =>
    cases k <;>
      simp [MatchRule.apply, MatchRule.holds, BuilderCall.key, BuilderCall.value, Key.is_arg,
        name_ne_empty]
  | _ =>
    cases k <;>
      simp [MatchRule.apply, MatchRule.holds, BuilderCall.key, BuilderCall.value, Key.is_arg]
    all_goals
      constructor <;>
        (rintro ⟨h1, h2⟩
         subst_vars
         constructor <;> first | rfl | assumption)

theorem last_set_append (calls : List BuilderCall) (c : BuilderCall) (k : Key) :
    last_set (calls ++ [c]) k =
      if c.key = k then (if k.is_arg = true ∨ c.value ≠ "" then some c.value else none)
      else last_set calls k := by
  unfold last_set
  rw [List.reverse_append, List.reverse_singleton, List.singleton_append, List.find?_cons]
  by_cases h : c.key = k <;> simp [h]

theorem build_append (calls : List BuilderCall) (c : BuilderCall) :
    MatchRule.build (calls ++ [c]) = (MatchRule.build calls).apply c := by
  simp [MatchRule.build, List.foldl_append]

theorem build_good (calls : List BuilderCall) :
    args_ascending (MatchRule.build calls).args ∧
    ∀ k v, (MatchRule.build calls).holds k v ↔ last_set calls k = some v := by
  induction calls using List.reverseRecOn with
  | nil =>
    refine ⟨List.Pairwise.nil, ?_⟩
    intro k v
    cases k <;> simp [MatchRule.build, MatchRule.unset, MatchRule.holds, last_set, eq_comm]
  | append_singleton calls c ih =>
    obtain ⟨hs, hh⟩ := ih
    rw [build_append]
    constructor
    · cases c <;> first | exact hs | exact set_arg_ascending _ _ _ hs
    · intro k v
      rw [holds_apply _ _ hs, last_set_append, hh]
      by_cases hk : c.key = k
      · by_cases hv : k.is_arg = true ∨ c.value ≠ "" <;> simp [hk, hv]
      · simp [hk]

theorem ranked_string_predicate (l : List (Key × String)) (k : Key) (value : String)
    (hl : l.Pairwise (fun a b => a.1.rank < b.1.rank)) (hb : ∀ a ∈ l, a.1.rank < k.rank) :
    (l ++ string_predicate k value).Pairwise (fun a b => a.1.rank < b.1.rank) ∧
    ∀ a ∈ l ++ string_predicate k value, a.1.rank < k.rank + 1 := by
  unfold string_predicate
  split_ifs with h
  · rw [List.append_nil]
    exact ⟨hl, fun a ha => Nat.lt_succ_of_lt (hb a ha)⟩
  · constructor
    · rw [List.pairwise_append]
      refine ⟨hl, List.pairwise_singleton _ _, ?_⟩
      intro a ha b hb2
      rw [List.mem_singleton] at hb2
      subst hb2
      exact hb a ha
    · intro a ha
      rcases List.mem_append.1 ha with ha | ha
      · exact Nat.lt_succ_of_lt (hb a ha)
      · rw [List.mem_singleton] at ha
        subst ha
        exact Nat.lt_succ_self _

theorem predicates_ranked (r : MatchRule) (h : args_ascending r.args) :
    r.predicates.Pairwise (fun a b => a.1.rank < b.1.rank) := by
  obtain ⟨ty, s, i, m, p, a⟩ := r
  have h0 : (type_predicate ty).Pairwise (fun a b => a.1.rank < b.1.rank) ∧
      ∀ x ∈ type_predicate ty, x.1.rank < Key.sender.rank := by
    cases ty with
    | none => exact ⟨List.Pairwise.nil, fun x hx => absurd hx (List.not_mem_nil x)⟩
    | some t =>
      refine ⟨List.pairwise_singleton _ _, ?_⟩
      intro x hx
      rw [type_predicate, List.mem_singleton] at hx
      subst hx
      exact Nat.zero_lt_one
  have h1 := ranked_string_predicate _ .sender s h0.1 h0.2
  have h2 := ranked_string_predicate _ .interface i h1.1 h1.2
  have h3 := ranked_string_predicate _ .member m h2.1 h2.2
  have h4 := ranked_string_predicate _ .path p h3.1 h3.2
  unfold MatchRule.predicates
  rw [List.pairwise_append]
  refine ⟨h4.1, ?_, ?_⟩
  · rw [List.pairwise_map]
    exact List.Pairwise.imp (fun hab => by simp only [Key.rank]; omega) h
  · intro x hx y hy
    obtain ⟨q, _, rfl⟩ := List.mem_map.1 hy
    have := h4.2 x hx
    simp only [Key.rank] at this ⊢
    omega

/-- A list whose keys ascend strictly in rank is determined by its members. -/
theorem ranked_ext (l1 l2 : List (Key × String))
    (h1 : l1.Pairwise (fun a b => a.1.rank < b.1.rank))
    (h2 : l2.Pairwise (fun a b => a.1.rank < b.1.rank))
    (h : ∀ x, x ∈ l1 ↔ x ∈ l2) : l1 = l2 := by
  have n1 : l1.Nodup := h1.imp (fun hab e => by subst e; exact lt_irrefl _ hab)
  have n2 : l2.Nodup := h2.imp (fun hab e => by subst e; exact lt_irrefl _ hab)
  have hp : l1.Perm l2 := (List.perm_ext_iff_of_nodup n1 n2).2 h
  haveI : IsAntisymm (Key × String) (fun a b => a.1.rank < b.1.rank) :=
    ⟨fun a b hab hba => absurd hab (lt_asymm hba)⟩
  exact List.eq_of_perm_of_sorted hp h1 h2

theorem intercalate_go (acc : String) (l : List String) :
    String.intercalate.go acc "," l
      = match l with
        | [] => acc
        | a :: rest => acc ++ "," ++ comma_joined (a :: rest) := by
  induction l generalizing acc with
  | nil => rfl
  | cons a rest ih =>
    rw [String.intercalate.go, ih]
    cases rest with
    | nil => rfl
    | cons b rest2 =>
      simp only [comma_joined, String.append_assoc]

theorem intercalate_comma (l : List String) : ",".intercalate l = comma_joined l := by
  cases l with
  | nil => rfl
  | cons a rest =>
    rw [String.intercalate, intercalate_go]
    cases rest with
    | nil => rfl
    | cons b rest2 => rfl

/-- C8: after any sequence of builder calls, in any order, the compiled rule lists exactly the
predicates the calls leave set (for each key the value of its last call; a string predicate set
to the empty string counts as unset), each once, as `key='value'`, in the fixed order type,
sender, interface, member, path, then args by ascending index, joined by single commas with no
comma leading, trailing or doubled; two call sequences that leave the same predicates set
compile to the same string; and the rule of the test compiles to the expected string. -/
theorem C8_compile_canonical (calls calls2 : List BuilderCall)
    (h : ∀ k, last_set calls2 k = last_set calls k) :
    (MatchRule.build calls).predicates.Pairwise (fun a b => a.1.rank < b.1.rank) ∧
    (∀ k v, (k, v) ∈ (MatchRule.build calls).predicates ↔ last_set calls k = some v) ∧
    (MatchRule.build calls).compile
      = comma_joined ((MatchRule.build calls).predicates.map
          (fun p => p.1.name ++ "='" ++ p.2 ++ "'")) ∧
    (MatchRule.build calls2).compile = (MatchRule.build calls).compile ∧
    (MatchRule.build test_rule_calls).as_string
      = "type='signal',sender='org.freedesktop.DBus',interface='org.freedesktop.DBus',member='ListNames',path='/org/freedesktop/DBus'" ∧
    (MatchRule.build [.path "/org/freedesktop/DBus", .member "ListNames"]).compile
      = "member='ListNames',path='/org/freedesktop/DBus'" := by
  obtain ⟨hs, hh⟩ := build_good calls
  obtain ⟨hs2, hh2⟩ := build_good calls2
  have hmem : ∀ k v, (k, v) ∈ (MatchRule.build calls).predicates ↔ last_set calls k = some v :=
    fun k v => (mem_predicates _ k v).trans (hh k v)
  have hmem2 : ∀ k v,
      (k, v) ∈ (MatchRule.build calls2).predicates ↔ last_set calls2 k = some v :=
    fun k v => (mem_predicates _ k v).trans (hh2 k v)
  have heq : (MatchRule.build calls2).predicates = (MatchRule.build calls).predicates := by
    apply ranked_ext _ _ (predicates_ranked _ hs2) (predicates_ranked _ hs)
    rintro ⟨k, v⟩
    rw [hmem, hmem2, h]
  refine ⟨predicates_ranked _ hs, hmem, ?_, ?_, by decide, by decide⟩
  · exact intercalate_comma _
  · unfold MatchRule.compile
    rw [heq]

theorem C8_compile_canonical_witness :
    (∀ k, last_set example_calls_reordered k = last_set example_calls k) ∧
    ((MatchRule.build example_calls).predicates.Pairwise
      (fun a b => a.1.rank < b.1.rank) ∧
    (∀ k v, (k, v) ∈ (MatchRule.build example_calls).predicates
      ↔ last_set example_calls k = some v) ∧
    (MatchRule.build example_calls).compile
      = comma_joined ((MatchRule.build example_calls).predicates.map
          (fun p => p.1.name ++ "='" ++ p.2 ++ "'")) ∧
    (MatchRule.build example_calls_reordered).compile
      = (MatchRule.build example_calls).compile ∧
    (MatchRule.build test_rule_calls).as_string
      = "type='signal',sender='org.freedesktop.DBus',interface='org.freedesktop.DBus',member='ListNames',path='/org/freedesktop/DBus'" ∧
    (MatchRule.build [.path "/org/freedesktop/DBus", .member "ListNames"]).compile
      = "member='ListNames',path='/org/freedesktop/DBus'") :=
  have h : ∀ k, last_set example_calls_reordered k = last_set example_calls k := by
    intro k
    cases k with
    | arg i =>
      by_cases hi : 0 = i <;>
        simp [last_set, example_calls, example_calls_reordered, BuilderCall.key,
          BuilderCall.value, Key.is_arg, List.find?_cons, hi]
    | _ =>
      simp [last_set, example_calls, example_calls_reordered, BuilderCall.key,
        BuilderCall.value, Key.is_arg]
  ⟨h, C8_compile_canonical example_calls example_calls_reordered h⟩

/-- On a completed PendingCall with a stored reply and a free guard, `then(cb)` invokes `cb`
once with the stored reply and leaves state and reply alone. -/
theorem then_completed (w : World) (m : Message) (cb : Notification)
    (hm : w.message = some m) (hg : w.guard = false) (hcb : cb ≠ .empty) :
    (then_ cb w).2.trace = w.trace ++ [.invoked cb (some m) true] ∧
    (then_ cb w).2.state = w.state ∧ (then_ cb w).2.message = some m := by
  obtain ⟨st, g, msg, cb0, c, tr⟩ := w
  simp only at hm hg
  subst hm hg
  rw [then_eq]
  cases cb with
  | empty => exact absurd rfl hcb
  | plain id => exact ⟨rfl, rfl, rfl⟩
  | rethen id next => exact ⟨rfl, rfl, rfl⟩

/-- C9: on a non-null handle whose notifier is accepted and whose call had already completed
with a reply `raw` that decodes to `m`, `create` returns, without invoking anything, a PendingCall
that is completed with `m` stored; a first `then(cb)` invokes `cb` at once with `m`; and the
notifier firing afterwards (before or after that `then`, whatever the transport then offers)
changes neither state nor stored reply and invokes nothing further. On a handle whose call had
not completed, `create` returns a pending PendingCall with no stored reply and invokes
nothing. -/
theorem C9_create_late_completion (frm : Nat → Option Message) (c p c2 : DBusPendingCall)
    (raw : Nat) (m : Message) (cb : Notification) (call cookie : Ptr)
    (hc : c.notify_accepted = true) (hcc : c.completed = true) (hr : c.reply = some raw)
    (hm : frm raw = some m) (hcb : cb ≠ .empty)
    (hp : p.notify_accepted = true) (hpc : p.completed = false) :
    (∃ w, create frm (some c) = ⟨.returned, some w⟩ ∧
      w.state = .completed ∧ w.message = some m ∧ invocations w.trace = [] ∧
      invocations (then_ cb w).2.trace = [(cb, some m)] ∧
      (on_pending_call_completed frm call cookie { w with call := c2 }).2.state = .completed ∧
      (on_pending_call_completed frm call cookie { w with call := c2 }).2.message = some m ∧
      invocations (on_pending_call_completed frm call cookie { w with call := c2 }).2.trace
        = [] ∧
      invocations (on_pending_call_completed frm call cookie
        { (then_ cb w).2 with call := c2 }).2.trace = [(cb, some m)]) ∧
    (∃ w, create frm (some p) = ⟨.returned, some w⟩ ∧
      w.state = .pending ∧ w.message = none ∧ invocations w.trace = []) := by
  constructor
  · obtain ⟨cc, rep, na, ch, cn, un⟩ := c
    simp only at hc hcc hr
    subst hc hcc hr
    refine ⟨_, rfl, rfl, hm, rfl, ?_⟩
    generalize hw : (dbus_pending_call_unref _).emit _ = w
    have hs : w.state = .completed := by rw [← hw]; rfl
    have hmsg : w.message = some m := by rw [← hw]; exact hm
    have hg : w.guard = false := by rw [← hw]; rfl
    have hi : invocations w.trace = [] := by rw [← hw]; rfl
    obtain ⟨t1, t2, t3⟩ := then_completed w m cb hmsg hg hcb
    have t4 : invocations (then_ cb w).2.trace = [(cb, some m)] := by
      rw [t1, invocations_append, hi]; rfl
    obtain ⟨n1, n2, _, n4⟩ :=
      notifier_completed frm call cookie { w with call := c2 } hs
    obtain ⟨_, _, _, k4⟩ :=
      notifier_completed frm call cookie { (then_ cb w).2 with call := c2 } (t2.trans hs)
    exact ⟨t4, n1, n2.trans hmsg, n4.trans hi, k4.trans t4⟩
  · obtain ⟨cc, rep, na, ch, cn, un⟩ := p
    simp only at hp hpc
    subst hp hpc
    exact ⟨_, rfl, rfl, rfl, rfl⟩

theorem C9_create_late_completion_witness :
    example_call_completed.notify_accepted = true ∧
    example_call_completed.completed = true ∧
    example_call_completed.reply = some 7 ∧
    example_from_raw 7 = some ⟨7⟩ ∧
    Notification.plain 1 ≠ .empty ∧
    example_call_pending.notify_accepted = true ∧
    example_call_pending.completed = false ∧
    ((∃ w, create example_from_raw (some example_call_completed) = ⟨.returned, some w⟩ ∧
      w.state = .completed ∧ w.message = some ⟨7⟩ ∧ invocations w.trace = [] ∧
      invocations (then_ (.plain 1) w).2.trace = [(.plain 1, some ⟨7⟩)] ∧
      (on_pending_call_completed example_from_raw .valid .valid
        { w with call := example_call_completed }).2.state = .completed ∧
      (on_pending_call_completed example_from_raw .valid .valid
        { w with call := example_call_completed }).2.message = some ⟨7⟩ ∧
      invocations (on_pending_call_completed example_from_raw .valid .valid
        { w with call := example_call_completed }).2.trace = [] ∧
      invocations (on_pending_call_completed example_from_raw .valid .valid
        { (then_ (.plain 1) w).2 with call := example_call_completed }).2.trace
          = [(.plain 1, some ⟨7⟩)]) ∧
    (∃ w, create example_from_raw (some example_call_pending) = ⟨.returned, some w⟩ ∧
      w.state = .pending ∧ w.message = none ∧ invocations w.trace = [])) :=
  ⟨rfl, rfl, rfl, rfl, by decide, rfl, rfl,
    C9_create_late_completion example_from_raw example_call_completed example_call_pending
      example_call_completed 7 ⟨7⟩ (.plain 1) .valid .valid rfl rfl rfl rfl (by decide)
      rfl rfl⟩

/-- The notifier leaves state, reply, callback and invocations alone when it is handed a null
handle or a null cookie, when the call has not completed, or when there is no reply to steal. -/
theorem notifier_without_reply (frm : Nat → Option Message) (call cookie : Ptr) (x : World)
    (hno : call = .null ∨ cookie = .null ∨ x.call.completed = false ∨ x.call.reply = none) :
    (on_pending_call_completed frm call cookie x).2.state = x.state ∧
    (on_pending_call_completed frm call cookie x).2.message = x.message ∧
    (on_pending_call_completed frm call cookie x).2.callback = x.callback ∧
    invocations (on_pending_call_completed frm call cookie x).2.trace
      = invocations x.trace := by
  obtain ⟨st, g, msg, cb, c, tr⟩ := x
  obtain ⟨cc, rep, na, ch, cn, un⟩ := c
  cases cookie <;> cases call <;> cases g <;> cases cc <;> cases rep <;>
    simp_all [on_pending_call_completed, lock_guard, unlock_guard, is_pending_call_completed,
      dbus_pending_call_steal_reply, World.emit, invocations_append, invocations]

/-- C10: provided `Message::from_raw_message` never yields a null message, every reachable
PendingCall is completed exactly when a reply is stored, so the test `if (message)` of `then`
is the test for completion; and the notifier firing with a null handle or cookie, on a call
that has not completed, or with no reply to steal leaves state, stored reply and callback
unchanged and invokes nothing. -/
theorem C10_completed_iff_reply_stored (frm : Nat → Option Message)
    (hfrm : ∀ raw, frm raw ≠ none) (w : World) (hw : Reachable frm w)
    (x : World) (call cookie : Ptr)
    (hno : call = .null ∨ cookie = .null ∨ x.call.completed = false ∨ x.call.reply = none) :
    (w.state = .completed ↔ w.message ≠ none) ∧
    w.message.isSome = decide (w.state = .completed) ∧
    (on_pending_call_completed frm call cookie x).2.state = x.state ∧
    (on_pending_call_completed frm call cookie x).2.message = x.message ∧
    (on_pending_call_completed frm call cookie x).2.callback = x.callback ∧
    invocations (on_pending_call_completed frm call cookie x).2.trace
      = invocations x.trace := by
  have hiff : w.state = .completed ↔ w.message ≠ none := by
    constructor
    · exact reachable_stored frm hfrm w hw
    · intro hne
      cases h : w.state with
      | completed => rfl
      | pending => exact absurd ((reachable_inv frm w hw).1 h).1 hne
  refine ⟨hiff, ?_, notifier_without_reply frm call cookie x hno⟩
  cases hm : w.message with
  | none =>
    have : ¬ w.state = .completed := fun h => hiff.1 h hm
    simp [this]
  | some m =>
    have : w.state = .completed := hiff.2 (by simp [hm])
    simp [this]

theorem C10_completed_iff_reply_stored_witness :
    (∀ raw, example_from_raw raw ≠ none) ∧
    Reachable example_from_raw example_world_completed ∧
    (Ptr.valid = .null ∨ Ptr.valid = .null ∨
      example_world_pending.call.completed = false ∨ example_world_pending.call.reply = none) ∧
    ((example_world_completed.state = .completed ↔ example_world_completed.message ≠ none) ∧
    example_world_completed.message.isSome
      = decide (example_world_completed.state = .completed) ∧
    (on_pending_call_completed example_from_raw .valid .valid example_world_pending).2.state
      = example_world_pending.state ∧
    (on_pending_call_completed example_from_raw .valid .valid example_world_pending).2.message
      = example_world_pending.message ∧
    (on_pending_call_completed example_from_raw .valid .valid example_world_pending).2.callback
      = example_world_pending.callback ∧
    invocations
        (on_pending_call_completed example_from_raw .valid .valid example_world_pending).2.trace
      = invocations example_world_pending.trace) :=
  ⟨fun _ h => Option.noConfusion h, example_world_completed_reachable,
    Or.inr (Or.inr (Or.inl rfl)),
    C10_completed_iff_reply_stored example_from_raw (fun _ h => Option.noConfusion h)
      example_world_completed example_world_completed_reachable example_world_pending
      .valid .valid (Or.inr (Or.inr (Or.inl rfl)))⟩

/-- An event passes the filter of a mode exactly when its name is the watched one and, in
registration mode, its old owner is empty, in unregistration mode, its new owner is empty. -/
theorem passes_filter_iff (n : String) (mode : WatchMode) (args : ArgumentType) :
    passes_filter (match_args n mode) args = true ↔
      args.1 = n ∧
      match mode with
      | .owner_change => True
      | .registration => args.2.1 = ""
      | .unregistration => args.2.2 = "" := by
  cases mode <;> simp [passes_filter, match_args, argument]

/-- C11: the constructor's filter combined with the handler. In unregistration mode every event
that passes the filter emits `owner_changed` and then `service_unregistered()`, never
`service_registered()`; in registration mode every event that passes the filter and whose old
and new owner are not both empty emits `owner_changed` and then `service_registered()`, never
`service_unregistered()` (the event with both owners empty passes that filter too and emits
`service_unregistered()`); in owner_change mode every event that passes emits `owner_changed`
and then the one decided by whether `new_owner` is empty. -/
theorem C11_mode_decides_emission (n : String) (u r o : ArgumentType)
    (hu : passes_filter (match_args n .unregistration) u = true)
    (hr : passes_filter (match_args n .registration) r = true)
    (hne : ¬ (r.2.1 = "" ∧ r.2.2 = ""))
    (ho : passes_filter (match_args n .owner_change) o = true) :
    watcher_emits n .unregistration u
      = [.owner_changed u.2.1 u.2.2, .service_unregistered] ∧
    WatcherEvent.service_registered ∉ watcher_emits n .unregistration u ∧
    watcher_emits n .registration r = [.owner_changed r.2.1 r.2.2, .service_registered] ∧
    WatcherEvent.service_unregistered ∉ watcher_emits n .registration r ∧
    watcher_emits n .registration (n, "", "")
      = [.owner_changed "" "", .service_unregistered] ∧
    watcher_emits n .owner_change o
      = [.owner_changed o.2.1 o.2.2,
         if o.2.2 = "" then .service_unregistered else .service_registered] := by
  have hu2 : u.2.2 = "" := ((passes_filter_iff n .unregistration u).1 hu).2
  have hr1 : r.2.1 = "" := ((passes_filter_iff n .registration r).1 hr).2
  have hr2 : r.2.2 ≠ "" := fun h => hne ⟨hr1, h⟩
  have hb : passes_filter (match_args n .registration) (n, "", "") = true :=
    (passes_filter_iff n .registration (n, "", "")).2 ⟨rfl, rfl⟩
  have e1 : watcher_emits n .unregistration u
      = [.owner_changed u.2.1 u.2.2, .service_unregistered] := by
    simp [watcher_emits, hu, signal_handler, hu2]
  have e2 : watcher_emits n .registration r
      = [.owner_changed r.2.1 r.2.2, .service_registered] := by
    simp [watcher_emits, hr, signal_handler, hr2]
  refine ⟨e1, ?_, e2, ?_, ?_, ?_⟩
  · rw [e1]; simp
  · rw [e2]; simp
  · simp [watcher_emits, hb, signal_handler]
  · by_cases h : o.2.2 = "" <;> simp [watcher_emits, ho, signal_handler, h]

theorem C11_mode_decides_emission_witness :
    passes_filter (match_args "a.name" .unregistration) ("a.name", "owner1", "") = true ∧
    passes_filter (match_args "a.name" .registration) ("a.name", "", "owner1") = true ∧
    ¬ ((("a.name", "", "owner1") : ArgumentType).2.1 = "" ∧
      (("a.name", "", "owner1") : ArgumentType).2.2 = "") ∧
    passes_filter (match_args "a.name" .owner_change) ("a.name", "owner1", "owner2") = true ∧
    (watcher_emits "a.name" .unregistration ("a.name", "owner1", "")
      = [.owner_changed (("a.name", "owner1", "") : ArgumentType).2.1
          (("a.name", "owner1", "") : ArgumentType).2.2, .service_unregistered] ∧
    WatcherEvent.service_registered
      ∉ watcher_emits "a.name" .unregistration ("a.name", "owner1", "") ∧
    watcher_emits "a.name" .registration ("a.name", "", "owner1")
      = [.owner_changed (("a.name", "", "owner1") : ArgumentType).2.1
          (("a.name", "", "owner1") : ArgumentType).2.2, .service_registered] ∧
    WatcherEvent.service_unregistered
      ∉ watcher_emits "a.name" .registration ("a.name", "", "owner1") ∧
    watcher_emits "a.name" .registration ("a.name", "", "")
      = [.owner_changed "" "", .service_unregistered] ∧
    watcher_emits "a.name" .owner_change ("a.name", "owner1", "owner2")
      = [.owner_changed (("a.name", "owner1", "owner2") : ArgumentType).2.1
          (("a.name", "owner1", "owner2") : ArgumentType).2.2,
         if (("a.name", "owner1", "owner2") : ArgumentType).2.2 = ""
         then .service_unregistered else .service_registered]) :=
  ⟨by decide, by decide, by decide, by decide,
    C11_mode_decides_emission "a.name" ("a.name", "owner1", "") ("a.name", "", "owner1")
      ("a.name", "owner1", "owner2") (by decide) (by decide) (by decide) (by decide)⟩

end DBusCpp
